import Mathlib

/-!
Shallow embedding of the segmented key/value store in src/datastore/db.go.

Byte strings are modelled as lists of naturals, file names by the inductive
type SegName (the source builds them with fmt.Sprintf from the fixed
literals "current-data", "segment-%d.seg", "segment-%d-merged.seg" and
"compact-%d.seg"; the glob pattern "segment-*.seg" matches exactly the
closed and merged shapes).  Wall-clock timestamps (time.Now().UnixNano())
are modelled by a strictly increasing counter stored in the state; file
modification times are set to the counter value at each write and are
preserved by rename, as on a POSIX filesystem.  Go channels are modelled
by open/closed flags: a send on a closed channel panics.
-/

-- ------------------------------------------------------------
-- Record codec.
-- ------------------------------------------------------------

abbrev Bytes := List Nat

/-- Errors are modelled as strings (Go error values). -/
abbrev Err := String

structure entry where
  key : Bytes
  value : Bytes
deriving DecidableEq, Repr

/-- Modelled from the spec: the entry codec (entry.Encode and
entry.DecodeFromReader) is referenced by src/datastore/db.go:28-29 but its
source is not part of the repository snapshot.  Per spec section 6 the
encoding is a self-describing binary record; we use a length followed by
the key bytes, then a length followed by the value bytes. -/
def entry.Encode (e : entry) : Bytes :=
  e.key.length :: (e.key ++ e.value.length :: e.value)

inductive DecodeResult where
  | ok (n : Nat) (e : entry)
  | eof (n : Nat)
deriving DecidableEq, Repr

/-- Modelled from the spec: the decoder, given a byte stream, returns either
(bytes consumed, decoded entry) or an end-of-stream signal carrying how many
bytes were consumed before the data ran out; zero consumed is a clean EOF,
nonzero consumed signals a truncated record. -/
def decodeFromBytes : Bytes → DecodeResult
  | [] => .eof 0
  | kl :: rest =>
    if rest.length < kl then .eof (1 + rest.length)
    else
      match rest.drop kl with
      | [] => .eof (1 + kl)
      | vl :: rest2 =>
        if rest2.length < vl then .eof (1 + kl + 1 + rest2.length)
        else .ok (1 + kl + 1 + vl) ⟨rest.take kl, rest2.take vl⟩

/-- Concatenation of the encodings of a list of entries: the content of a
segment file holding those entries in order. -/
def encodeList : List entry → Bytes
  | [] => []
  | e :: es => e.Encode ++ encodeList es

-- ------------------------------------------------------------
-- Filesystem model.
-- ------------------------------------------------------------

/-- File names occurring in the store directory (db.go:16-19,187,233,302). -/
inductive SegName where
  | active                -- "current-data"
  | closed (ts : Nat)     -- "segment-<ts>.seg"
  | merged (ts : Nat)     -- "segment-<ts>-merged.seg"
  | compactTmp (ts : Nat) -- "compact-<ts>.seg"
deriving DecidableEq, Repr

/-- Whether a name matches the glob pattern "segment-*.seg" (db.go:18):
both plain closed segments and merged segments do; the active file and the
compaction temporary do not. -/
def isClosedPattern : SegName → Bool
  | .closed _ => true
  | .merged _ => true
  | .active => false
  | .compactTmp _ => false

structure FsFile where
  name : SegName
  content : Bytes
  mtime : Nat
deriving DecidableEq, Repr

abbrev DirFs := List FsFile

/-- os.Open by name: the first file with that name, if any. -/
def fsFind (fs : DirFs) (nm : SegName) : Option FsFile :=
  fs.find? (fun f => f.name = nm)

/-- Append data to the file named nm (O_APPEND write), updating its mtime. -/
def fsAppend (fs : DirFs) (nm : SegName) (data : Bytes) (t : Nat) : DirFs :=
  fs.map (fun f => if f.name = nm then ⟨f.name, f.content ++ data, t⟩ else f)

/-- Create a fresh empty file. -/
def fsCreate (fs : DirFs) (nm : SegName) (t : Nat) : DirFs :=
  fs ++ [⟨nm, [], t⟩]

/-- os.Rename: the renamed file keeps its content and modification time. -/
def fsRename (fs : DirFs) (old new : SegName) : DirFs :=
  fs.map (fun f => if f.name = old then ⟨new, f.content, f.mtime⟩ else f)

/-- The files matching the closed-segment glob pattern (db.go:176). -/
def closedFiles (fs : DirFs) : DirFs :=
  fs.filter (fun f => isClosedPattern f.name)

/-- Insertion into a list sorted by ascending modification time. -/
def insertByMtime (f : FsFile) : DirFs → DirFs
  | [] => [f]
  | g :: gs => if f.mtime ≤ g.mtime then f :: g :: gs else g :: insertByMtime f gs

/-- Sort by ascending modification time (db.go:365-369). -/
def sortByMtime : DirFs → DirFs
  | [] => []
  | f :: fs => insertByMtime f (sortByMtime fs)

-- ------------------------------------------------------------
-- Store state.
-- ------------------------------------------------------------

structure segPointer where
  file : SegName
  offset : Nat
deriving DecidableEq, Repr

/-- The in-memory index, a map from key to segment pointer (db.go:36).
Kept as an association list with at most one binding per key. -/
abbrev hashIndex := List (Bytes × segPointer)

def idxLookup (k : Bytes) : hashIndex → Option segPointer
  | [] => none
  | (k2, p) :: t => if k2 = k then some p else idxLookup k t

/-- Map insertion: replaces an existing binding for the key, keeping one
binding per key as a Go map does. -/
def idxInsert (k : Bytes) (p : segPointer) : hashIndex → hashIndex
  | [] => [(k, p)]
  | (k2, p2) :: t => if k2 = k then (k, p) :: t else (k2, p2) :: idxInsert k p t

def ErrNotFound : Err := "record does not exist"
def writeErr : Err := "write error"
def createErr : Err := "create error"
def renameErr : Err := "rename error"
def openErr : Err := "open error"
def eofErr : Err := "EOF"
def corruptErr : Err := "corrupted segment"
def statErr : Err := "stat error"
def syncErr : Err := "sync error"
def closeErr : Err := "close error"
def reopenErr : Err := "reopen error"
def fuelErr : Err := "fuel"

/-- The Db state (db.go:64-84).  File handles are represented by the name
of the file they designate; writeChOpen and getChOpen model whether the
request channels are open. -/
structure DbState where
  fs : DirFs
  index : hashIndex
  outOffset : Nat
  maxSegBytes : Nat
  clock : Nat
  writeChOpen : Bool
  getChOpen : Bool
deriving DecidableEq, Repr

-- ------------------------------------------------------------
-- Reading (db.go:318-352).
-- ------------------------------------------------------------

/-- readEntry (db.go:339-352): open the file named by the pointer, seek to
its offset, decode one entry.  A missing file is an open error; a decoder
EOF (clean or truncated) is returned as an error as DecodeFromReader does. -/
def readEntry (fs : DirFs) (p : segPointer) : Except Err entry :=
  match fsFind fs p.file with
  | none => .error openErr
  | some f =>
    match decodeFromBytes (f.content.drop p.offset) with
    | .ok _ e => .ok e
    | .eof _ => .error eofErr

/-- One backgroundReader iteration (db.go:318-336): index lookup under the
read lock, then readEntry; an absent key yields ErrNotFound and the empty
value. -/
def getOp (s : DbState) (k : Bytes) : Bytes × Option Err :=
  match idxLookup k s.index with
  | none => ([], some ErrNotFound)
  | some ptr =>
    match readEntry s.fs ptr with
    | .error e => ([], some e)
    | .ok rec => (rec.value, none)

/-- Get as a state transformer: a lookup never mutates the store. -/
def getStep (s : DbState) (k : Bytes) : DbState × (Bytes × Option Err) :=
  (s, getOp s k)

-- ------------------------------------------------------------
-- Writing and rotation (db.go:266-315).
-- ------------------------------------------------------------

/-- Fault points inside rotateSegment (db.go:292-315), in source order:
Sync, Close, Rename, OpenFile; noFault is the successful path. -/
inductive RotFault where
  | noFault
  | syncFail
  | closeFail
  | renameFail
  | openFail
deriving DecidableEq, Repr

/-- rotateSegment (db.go:292-315): sync and close the active file, rename
it to segment-<now>.seg, open a fresh active file, reset the offset.  Each
early return leaves exactly the state the source leaves: a sync or close
failure changes nothing; a rename failure only consumed a timestamp; an
open failure leaves the active file renamed away, with no new active file
and the offset not reset. -/
def rotateSegmentF (s : DbState) (rf : RotFault) : DbState × Option Err :=
  match rf with
  | .syncFail => (s, some syncErr)
  | .closeFail => (s, some closeErr)
  | .renameFail => ({ s with clock := s.clock + 1 }, some renameErr)
  | .openFail =>
    ({ s with
       fs := fsRename s.fs .active (.closed s.clock),
       clock := s.clock + 1 }, some reopenErr)
  | .noFault =>
    let fs1 := fsRename s.fs .active (.closed s.clock)
    ({ s with
       fs := fsCreate fs1 .active (s.clock + 1),
       outOffset := 0,
       clock := s.clock + 2 }, none)

structure PutFault where
  writeFail : Option Nat   -- some n: the append fails after writing n bytes
  rotFault : RotFault
deriving DecidableEq, Repr

/-- One backgroundWriter iteration (db.go:266-289) for one request, with
injected faults.  On a write error the index and tracked offset are not
touched (the update is guarded by err == nil), though the file may have
grown by the partially written bytes.  The request result is the append
error; it is sent before the rotation check, and a rotation error is
discarded (db.go:286 assigns it to the blank identifier). -/
def putStepF (s : DbState) (k v : Bytes) (pf : PutFault) : DbState × Option Err :=
  let data := (entry.mk k v).Encode
  let pos := s.outOffset
  match pf.writeFail with
  | some n =>
    let s1 : DbState :=
      { s with
        fs := fsAppend s.fs .active (data.take n) s.clock,
        clock := s.clock + 1 }
    let s2 := if s1.maxSegBytes ≤ s1.outOffset then (rotateSegmentF s1 pf.rotFault).1 else s1
    (s2, some writeErr)
  | none =>
    let s1 : DbState :=
      { s with
        fs := fsAppend s.fs .active data s.clock,
        index := idxInsert k ⟨.active, pos⟩ s.index,
        outOffset := pos + data.length,
        clock := s.clock + 1 }
    let s2 := if s1.maxSegBytes ≤ s1.outOffset then (rotateSegmentF s1 pf.rotFault).1 else s1
    (s2, none)

/-- The fault-free write path. -/
def putStep (s : DbState) (k v : Bytes) : DbState × Option Err :=
  putStepF s k v ⟨none, .noFault⟩

/-- Process a sequence of Put requests through the write serializer. -/
def applyPuts (s : DbState) (ps : List (Bytes × Bytes)) : DbState :=
  ps.foldl (fun acc kv => (putStep acc kv.1 kv.2).1) s

/-- Total encoded length of a sequence of Put requests. -/
def totalEncoded (ps : List (Bytes × Bytes)) : Nat :=
  (ps.map (fun kv => (entry.mk kv.1 kv.2).Encode.length)).sum

/-- Size (db.go:151-157): Stat of the active file. -/
def sizeOp (s : DbState) : Except Err Nat :=
  match fsFind s.fs .active with
  | none => .error statErr
  | some f => .ok f.content.length

-- ------------------------------------------------------------
-- Channel wrappers (db.go:137-167) and the panic observable.
-- ------------------------------------------------------------

inductive CallOutcome (α : Type) where
  | panics
  | returns (a : α)
deriving DecidableEq, Repr

/-- Put (db.go:137-141) sends on writeCh unconditionally; in Go, a send on
a closed channel panics, and there is no guarded stopped branch. -/
def putCall (s : DbState) (k v : Bytes) : CallOutcome (DbState × Option Err) :=
  match s.writeChOpen with
  | true => .returns (putStep s k v)
  | false => .panics

/-- Get (db.go:143-148) sends on getCh unconditionally. -/
def getCall (s : DbState) (k : Bytes) : CallOutcome (Bytes × Option Err) :=
  match s.getChOpen with
  | true => .returns (getOp s k)
  | false => .panics

/-- Close (db.go:159-167): closes both request channels, waits for the
workers, closes the active file handle; the directory is untouched. -/
def closeDb (s : DbState) : DbState :=
  { s with writeChOpen := false, getChOpen := false }

/-- The state during the pause Compact performs first (db.go:172-173):
the write channel is closed and drained, nothing else has happened yet. -/
def compactPaused (s : DbState) : DbState :=
  { s with writeChOpen := false }

/-- restartWriter (db.go:259-263): a fresh write channel and a new writer. -/
def restartWriter (s : DbState) : DbState :=
  { s with writeChOpen := true }

-- ------------------------------------------------------------
-- Recovery (db.go:354-410) and Open (db.go:90-135).
-- ------------------------------------------------------------

/-- The replay loop of recoverFile (db.go:389-403): decode entries from the
byte stream, recording for each key the offset its record starts at and
advancing by the consumed length; a clean EOF (zero bytes consumed) ends
the loop, a truncated trailing record is a corruption error.  The fuel
argument only bounds the recursion; recoverFile supplies more fuel than
bytes, and every decoded record consumes at least one byte, so the
out-of-fuel branch is unreachable there. -/
def replayAux (path : SegName) : Nat → Bytes → Nat → hashIndex → Except Err (hashIndex × Nat)
  | 0, _, _, _ => .error fuelErr
  | fuel + 1, bs, off, idx =>
    match decodeFromBytes bs with
    | .eof 0 => .ok (idx, off)
    | .eof (_ + 1) => .error corruptErr
    | .ok n e => replayAux path fuel (bs.drop n) (off + n) (idxInsert e.key ⟨path, off⟩ idx)

/-- recoverFile (db.go:380-410) for the file named path with the given
content, threading the index; returns the updated index and the total
number of bytes consumed. -/
def recoverFile (path : SegName) (content : Bytes) (idx : hashIndex) :
    Except Err (hashIndex × Nat) :=
  replayAux path (content.length + 1) content 0 idx

/-- The files Recovery enumerates (db.go:357-362): matches of the closed
pattern, then the active file, in that pattern order; recoverAll then sorts
them by modification time. -/
def globRecovery (fs : DirFs) : DirFs :=
  closedFiles fs ++ fs.filter (fun f => f.name = SegName.active)

/-- The fold of recoverAll (db.go:371-375) over the sorted file list; the
running outOffset is replaced by the bytes consumed from the active file
when that file is processed (db.go:405-408). -/
def recoverList : DirFs → hashIndex → Nat → Except Err (hashIndex × Nat)
  | [], idx, off => .ok (idx, off)
  | f :: rest, idx, off =>
    match recoverFile f.name f.content idx with
    | .error e => .error e
    | .ok (idx2, consumed) =>
      recoverList rest idx2 (if f.name = SegName.active then consumed else off)

/-- recoverAll (db.go:355-377): replay every segment file in ascending
modification-time order. -/
def recoverAll (fs : DirFs) : Except Err (hashIndex × Nat) :=
  recoverList (sortByMtime (globRecovery fs)) [] 0

/-- Open (db.go:90-135) on a directory with the given contents: create the
active file if absent, rebuild the index by recovery, start the writer and
the reader pool. -/
def OpenDb (dirFs : DirFs) (maxSeg : Nat) (c : Nat) : Except Err DbState :=
  let fs1 := if (fsFind dirFs .active).isSome then dirFs else fsCreate dirFs .active c
  let c1 := if (fsFind dirFs .active).isSome then c else c + 1
  match recoverAll fs1 with
  | .error e => .error e
  | .ok (idx, off) =>
    .ok ⟨fs1, idx, off, maxSeg, c1, true, true⟩

/-- The store obtained by opening an empty directory. -/
def initState (maxSeg : Nat) : DbState :=
  ⟨[⟨SegName.active, [], 0⟩], [], 0, maxSeg, 1, true, true⟩

-- ------------------------------------------------------------
-- Compaction (db.go:170-253).
-- ------------------------------------------------------------

structure CompactFaults where
  tmpCreateFail : Bool
  writeFailAt : Option Nat
  renameFail : Bool
deriving DecidableEq, Repr

/-- The copy loop of Compact (db.go:210-228): for each snapshotted pair,
read the entry at its old location, append its encoding to the temporary
file, and record the new pointer, which names the temporary file.  The
writeFailAt fault makes the i-th write fail.  Returns the filesystem, the
accumulated new pointers, and the first error if any. -/
def copyEntries (tmp : SegName) (t : Nat) :
    DirFs → List (Bytes × segPointer) → Nat → hashIndex → Option Nat →
    DirFs × hashIndex × Option Err
  | fs, [], _, acc, _ => (fs, acc, none)
  | fs, (k, p) :: rest, off, acc, failAt =>
    match readEntry fs p with
    | .error e => (fs, acc, some e)
    | .ok rec =>
      match failAt with
      | some 0 => (fs, acc, some writeErr)
      | some (i + 1) =>
        copyEntries tmp t (fsAppend fs tmp rec.Encode t) rest
          (off + rec.Encode.length) (idxInsert k ⟨tmp, off⟩ acc) (some i)
      | none =>
        copyEntries tmp t (fsAppend fs tmp rec.Encode t) rest
          (off + rec.Encode.length) (idxInsert k ⟨tmp, off⟩ acc) none

/-- Install the compaction pointers into the index (db.go:240-244). -/
def installPointers (ps : hashIndex) (idx : hashIndex) : hashIndex :=
  ps.foldl (fun acc kp => idxInsert kp.1 kp.2 acc) idx

/-- Compact (db.go:170-253) with injected faults.  The writer is paused by
closing its channel; the closed segments are enumerated with the glob
pattern (a fixed valid literal, so Glob itself cannot fail); entries whose
pointer is not the active file are copied into a temporary file which is
then renamed to a merged segment name; the index is updated from the
recorded pointers and the old closed segments are deleted, ignoring delete
errors; every return path restarts the writer except the unreachable glob
failure.  Note db.go:226 records pointers naming the temporary file and
db.go:234 renames that file before db.go:241 installs them. -/
def CompactF (s : DbState) (cf : CompactFaults) : DbState × Option Err :=
  let s0 := compactPaused s
  let segs := (closedFiles s0.fs).map FsFile.name
  if segs.isEmpty then (restartWriter s0, none)
  else
    let tmpName := SegName.compactTmp s0.clock
    let s1 : DbState := { s0 with clock := s0.clock + 1 }
    if cf.tmpCreateFail then (restartWriter s1, some createErr)
    else
      let s2 : DbState := { s1 with fs := fsCreate s1.fs tmpName s1.clock }
      let latest := s2.index.filter (fun kp => kp.2.file ≠ SegName.active)
      match copyEntries tmpName s2.clock s2.fs latest 0 [] cf.writeFailAt with
      | (fs2, _, some e) => (restartWriter { s2 with fs := fs2 }, some e)
      | (fs2, newPointers, none) =>
        let mergedName := SegName.merged s2.clock
        let s3 : DbState := { s2 with fs := fs2, clock := s2.clock + 1 }
        if cf.renameFail then (restartWriter s3, some renameErr)
        else
          let fs3 := fsRename s3.fs tmpName mergedName
          let idx2 := installPointers newPointers s3.index
          let fs4 := fs3.filter (fun f => decide (f.name ∉ segs))
          (restartWriter { s3 with fs := fs4, index := idx2 }, none)

/-- The fault-free compaction path. -/
def Compact (s : DbState) : DbState × Option Err :=
  CompactF s ⟨false, none, false⟩

-- ------------------------------------------------------------
-- States used by concrete witnesses, and invariant predicates.
-- ------------------------------------------------------------

/-- A store with one closed segment holding the record for key [0] and an
empty active file: the state reached by opening a directory produced by a
Put of ([0], [1]) under a 1-byte segment limit (see the recovery trace in
the theorems below). -/
def sampleState : DbState :=
  ⟨[⟨SegName.closed 2, [1, 0, 1, 1], 1⟩, ⟨SegName.active, [], 3⟩],
   [([0], ⟨SegName.closed 2, 0⟩)], 0, 1, 4, true, true⟩

/-- The active file exists and its length equals the tracked append offset
(spec section 3, Store state: the offset mirrors the active file length). -/
def activeTracksOffset (s : DbState) : Prop :=
  ∃ f, fsFind s.fs SegName.active = some f ∧ f.content.length = s.outOffset

-- ------------------------------------------------------------
-- Helper lemmas.
-- ------------------------------------------------------------

lemma encode_length_pos (e : entry) : 0 < e.Encode.length := by
  simp [entry.Encode]

lemma decode_encode_append (e : entry) (rest : Bytes) :
    decodeFromBytes (e.Encode ++ rest) = .ok e.Encode.length e := by
  obtain ⟨k, v⟩ := e
  show decodeFromBytes (k.length :: (k ++ v.length :: v) ++ rest) = _
  rw [List.cons_append, List.append_assoc, List.cons_append]
  simp only [decodeFromBytes]
  rw [if_neg (by simp [List.length_append])]
  have hdrop : (k ++ v.length :: (v ++ rest)).drop k.length = v.length :: (v ++ rest) :=
    List.drop_left k _
  rw [hdrop]
  dsimp only
  rw [if_neg (by simp [List.length_append])]
  have htk : (k ++ v.length :: (v ++ rest)).take k.length = k := List.take_left k _
  have htv : (v ++ rest).take v.length = v := List.take_left v rest
  rw [htk, htv]
  simp [entry.Encode]
  omega

lemma replayAux_clean (path : SegName) (es : List entry) :
    ∀ (fuel off : Nat) (idx : hashIndex), (encodeList es).length < fuel →
      ∃ idx2, replayAux path fuel (encodeList es) off idx
        = .ok (idx2, off + (encodeList es).length) := by
  induction es with
  | nil =>
    intro fuel off idx hf
    match fuel, hf with
    | fuel + 1, _ =>
      exact ⟨idx, by simp [replayAux, encodeList, decodeFromBytes]⟩
  | cons e es ih =>
    intro fuel off idx hf
    match fuel, hf with
    | fuel + 1, hf =>
      have hlen : (encodeList (e :: es)).length
          = e.Encode.length + (encodeList es).length := by
        simp [encodeList]
      have hrec : (encodeList es).length < fuel := by
        have := encode_length_pos e
        omega
      obtain ⟨idx2, h2⟩ := ih fuel (off + e.Encode.length)
        (idxInsert e.key ⟨path, off⟩ idx) hrec
      refine ⟨idx2, ?_⟩
      show replayAux path (fuel + 1) (encodeList (e :: es)) off idx = _
      rw [show encodeList (e :: es) = e.Encode ++ encodeList es from rfl]
      simp only [replayAux, decode_encode_append]
      rw [List.drop_left, h2]
      simp only [Except.ok.injEq, Prod.mk.injEq, List.length_append]
      exact ⟨trivial, by omega⟩

lemma replayAux_corrupt (path : SegName) (es : List entry) (p : Bytes) (m : Nat) :
    ∀ (fuel off : Nat) (idx : hashIndex), (encodeList es ++ p).length < fuel →
      decodeFromBytes p = .eof (m + 1) →
      replayAux path fuel (encodeList es ++ p) off idx = .error corruptErr := by
  induction es with
  | nil =>
    intro fuel off idx hf hp
    match fuel, hf with
    | fuel + 1, _ =>
      show replayAux path (fuel + 1) (encodeList [] ++ p) off idx = _
      rw [show encodeList [] ++ p = p from by simp [encodeList]]
      simp only [replayAux, hp]
  | cons e es ih =>
    intro fuel off idx hf hp
    match fuel, hf with
    | fuel + 1, hf =>
      show replayAux path (fuel + 1) (encodeList (e :: es) ++ p) off idx = _
      rw [show encodeList (e :: es) ++ p = e.Encode ++ (encodeList es ++ p) from by
        simp [encodeList]]
      simp only [replayAux, decode_encode_append]
      rw [List.drop_left]
      apply ih
      · have := encode_length_pos e
        have : (e.Encode ++ (encodeList es ++ p)).length
            = e.Encode.length + (encodeList es ++ p).length := by simp
        have hlen2 : (encodeList (e :: es) ++ p).length
            = e.Encode.length + (encodeList es ++ p).length := by simp [encodeList]
        omega
      · exact hp

lemma idxLookup_insert_self (k : Bytes) (p : segPointer) (idx : hashIndex) :
    idxLookup k (idxInsert k p idx) = some p := by
  induction idx with
  | nil => simp [idxInsert, idxLookup]
  | cons kp t ih =>
    obtain ⟨k2, p2⟩ := kp
    by_cases h : k2 = k
    · simp [idxInsert, idxLookup, h]
    · simp [idxInsert, idxLookup, h, ih]

lemma idxLookup_insert_ne (k k2 : Bytes) (p : segPointer) (idx : hashIndex)
    (h : k2 ≠ k) : idxLookup k (idxInsert k2 p idx) = idxLookup k idx := by
  induction idx with
  | nil => simp [idxInsert, idxLookup, h]
  | cons kp t ih =>
    obtain ⟨k3, p3⟩ := kp
    by_cases h3 : k3 = k2
    · subst h3
      simp [idxInsert, idxLookup, h]
    · by_cases h4 : k3 = k
      · subst h4
        have h5 : k3 ≠ k2 := h3
        simp [idxInsert, idxLookup, h5]
      · simp [idxInsert, idxLookup, h3, h4, ih]

lemma closedFiles_fsCreate (fs : DirFs) (nm : SegName) (t : Nat)
    (h : isClosedPattern nm = false) :
    closedFiles (fsCreate fs nm t) = closedFiles fs := by
  simp [closedFiles, fsCreate, List.filter_append, h]

lemma closedFiles_map (fs : DirFs) (g : FsFile → FsFile)
    (h1 : ∀ f, isClosedPattern (g f).name = isClosedPattern f.name)
    (h2 : ∀ f, isClosedPattern f.name = true → g f = f) :
    closedFiles (fs.map g) = closedFiles fs := by
  induction fs with
  | nil => rfl
  | cons f rest ih =>
    simp only [List.map_cons, closedFiles, List.filter_cons] at ih ⊢
    cases hc : isClosedPattern f.name with
    | false => simp [h1 f, hc, ih]
    | true => simp [h1 f, hc, h2 f hc, ih]

lemma closedFiles_fsAppend (fs : DirFs) (nm : SegName) (data : Bytes) (t : Nat)
    (h : isClosedPattern nm = false) :
    closedFiles (fsAppend fs nm data t) = closedFiles fs := by
  apply closedFiles_map
  · intro f
    by_cases hf : f.name = nm
    · rw [if_pos hf]
    · rw [if_neg hf]
  · intro f hp
    have hf : f.name ≠ nm := fun hh => by rw [hh, h] at hp; cases hp
    rw [if_neg hf]

lemma copyEntries_closedFiles (tmp : SegName) (t : Nat)
    (h : isClosedPattern tmp = false) :
    ∀ (items : List (Bytes × segPointer)) (fs : DirFs) (off : Nat)
      (acc : hashIndex) (fa : Option Nat),
      closedFiles (copyEntries tmp t fs items off acc fa).1 = closedFiles fs := by
  intro items
  induction items with
  | nil => intro fs off acc fa; rfl
  | cons kp rest ih =>
    intro fs off acc fa
    obtain ⟨k, p⟩ := kp
    simp only [copyEntries]
    cases readEntry fs p with
    | error e => rfl
    | ok rec =>
      cases fa with
      | none =>
        simp only []
        rw [ih, closedFiles_fsAppend _ _ _ _ h]
      | some i =>
        cases i with
        | zero => rfl
        | succ j =>
          simp only []
          rw [ih, closedFiles_fsAppend _ _ _ _ h]

lemma fsFind_fsAppend_self (fs : DirFs) (nm : SegName) (data : Bytes) (t : Nat)
    (f : FsFile) (h : fsFind fs nm = some f) :
    fsFind (fsAppend fs nm data t) nm = some ⟨f.name, f.content ++ data, t⟩ := by
  induction fs with
  | nil => simp [fsFind] at h
  | cons g rest ih =>
    by_cases hg : g.name = nm
    · rw [fsFind, List.find?_cons_of_pos _ (by simp [hg])] at h
      injection h with h
      subst h
      rw [fsAppend, List.map_cons, if_pos hg, fsFind,
        List.find?_cons_of_pos _ (by simp [hg])]
    · rw [fsFind, List.find?_cons_of_neg _ (by simp [hg])] at h
      have h2 := ih h
      rw [fsAppend, List.map_cons, if_neg hg, fsFind,
        List.find?_cons_of_neg _ (by simp [hg])]
      exact h2

lemma fsFind_fsRename_away (fs : DirFs) (old new : SegName) (h : new ≠ old) :
    fsFind (fsRename fs old new) old = none := by
  induction fs with
  | nil => rfl
  | cons g rest ih =>
    by_cases hg : g.name = old
    · rw [fsRename, List.map_cons, if_pos hg, fsFind,
        List.find?_cons_of_neg _ (by simp [h])]
      exact ih
    · rw [fsRename, List.map_cons, if_neg hg, fsFind,
        List.find?_cons_of_neg _ (by simp [hg])]
      exact ih

lemma rotateSegmentF_index (s : DbState) (rf : RotFault) :
    (rotateSegmentF s rf).1.index = s.index := by
  cases rf <;> rfl

lemma rotateSegmentF_max (s : DbState) (rf : RotFault) :
    (rotateSegmentF s rf).1.maxSegBytes = s.maxSegBytes := by
  cases rf <;> rfl

lemma putStep_index (s : DbState) (k v : Bytes) :
    (putStep s k v).1.index = idxInsert k ⟨SegName.active, s.outOffset⟩ s.index := by
  simp only [putStep, putStepF]
  split
  · exact rotateSegmentF_index _ _
  · rfl

lemma putStep_max (s : DbState) (k v : Bytes) :
    (putStep s k v).1.maxSegBytes = s.maxSegBytes := by
  simp only [putStep, putStepF]
  split
  · exact rotateSegmentF_max _ _
  · rfl

lemma applyPuts_lookup_none (ps : List (Bytes × Bytes)) :
    ∀ (s : DbState) (k : Bytes), (∀ kv ∈ ps, kv.1 ≠ k) →
      idxLookup k s.index = none →
      idxLookup k (applyPuts s ps).index = none := by
  induction ps with
  | nil => intro s k _ h0; exact h0
  | cons kv rest ih =>
    intro s k hne h0
    show idxLookup k (applyPuts (putStep s kv.1 kv.2).1 rest).index = none
    apply ih
    · intro kv2 hm; exact hne kv2 (List.mem_cons_of_mem _ hm)
    · rw [putStep_index]
      rw [idxLookup_insert_ne _ _ _ _ (hne kv (List.mem_cons_self _ _))]
      exact h0

lemma putStep_fst (s : DbState) (k v : Bytes) :
    (putStep s k v).1 =
      if s.maxSegBytes ≤ s.outOffset + (entry.mk k v).Encode.length then
        (rotateSegmentF
          { s with
            fs := fsAppend s.fs SegName.active (entry.mk k v).Encode s.clock,
            index := idxInsert k ⟨SegName.active, s.outOffset⟩ s.index,
            outOffset := s.outOffset + (entry.mk k v).Encode.length,
            clock := s.clock + 1 } RotFault.noFault).1
      else
        { s with
          fs := fsAppend s.fs SegName.active (entry.mk k v).Encode s.clock,
          index := idxInsert k ⟨SegName.active, s.outOffset⟩ s.index,
          outOffset := s.outOffset + (entry.mk k v).Encode.length,
          clock := s.clock + 1 } := rfl

lemma rotate_noFault_fst (s : DbState) :
    (rotateSegmentF s RotFault.noFault).1 =
      { s with
        fs := fsCreate (fsRename s.fs SegName.active (SegName.closed s.clock))
          SegName.active (s.clock + 1),
        outOffset := 0,
        clock := s.clock + 2 } := rfl

lemma fsFind_rotated (fs : DirFs) (c t : Nat) :
    fsFind (fsCreate (fsRename fs SegName.active (SegName.closed c)) SegName.active t)
      SegName.active = some ⟨SegName.active, [], t⟩ := by
  have h0 : fsFind (fsRename fs SegName.active (SegName.closed c)) SegName.active
      = none := fsFind_fsRename_away fs _ _ (by simp)
  rw [fsFind] at h0
  rw [fsCreate, fsFind, List.find?_append, h0]
  simp [List.find?]

lemma closedFiles_fsRename_toClosed (fs : DirFs) (c : Nat) (f : FsFile)
    (hf : fsFind fs SegName.active = some f) :
    closedFiles (fsRename fs SegName.active (SegName.closed c)) ≠ [] := by
  have hmem : f ∈ fs := List.mem_of_find?_eq_some hf
  have hname : f.name = SegName.active := by
    have := List.find?_some hf
    simpa using this
  intro hnil
  rw [closedFiles, List.filter_eq_nil_iff] at hnil
  have hmem2 : (⟨SegName.closed c, f.content, f.mtime⟩ : FsFile)
      ∈ fsRename fs SegName.active (SegName.closed c) := by
    rw [fsRename]
    have h3 := List.mem_map_of_mem
      (fun g => if g.name = SegName.active then
        (⟨SegName.closed c, g.content, g.mtime⟩ : FsFile) else g) hmem
    dsimp only at h3
    rw [if_pos hname] at h3
    exact h3
  exact hnil _ hmem2 rfl

lemma putStep_inv (s : DbState) (k v : Bytes) (w : Nat)
    (h1 : activeTracksOffset s)
    (h2 : s.outOffset < s.maxSegBytes)
    (h3 : closedFiles s.fs = [] → s.outOffset = w) :
    activeTracksOffset (putStep s k v).1 ∧
    (putStep s k v).1.outOffset < (putStep s k v).1.maxSegBytes ∧
    (closedFiles (putStep s k v).1.fs = [] →
      (putStep s k v).1.outOffset = w + (entry.mk k v).Encode.length) := by
  obtain ⟨f, hf, hlen⟩ := h1
  rw [putStep_fst]
  by_cases hrot : s.maxSegBytes ≤ s.outOffset + (entry.mk k v).Encode.length
  · rw [if_pos hrot, rotate_noFault_fst]
    refine ⟨⟨⟨SegName.active, [], s.clock + 2⟩, ?_, rfl⟩, ?_, ?_⟩
    · exact fsFind_rotated _ _ _
    · show 0 < s.maxSegBytes
      omega
    · intro hnil
      exfalso
      rw [closedFiles_fsCreate _ SegName.active _ rfl] at hnil
      exact closedFiles_fsRename_toClosed _ _ _
        (fsFind_fsAppend_self s.fs _ _ _ f hf) hnil
  · rw [if_neg hrot]
    refine ⟨⟨⟨f.name, f.content ++ (entry.mk k v).Encode, s.clock⟩, ?_, ?_⟩, ?_, ?_⟩
    · exact fsFind_fsAppend_self s.fs _ _ _ f hf
    · show (f.content ++ (entry.mk k v).Encode).length = s.outOffset + _
      rw [List.length_append, hlen]
    · show s.outOffset + (entry.mk k v).Encode.length < s.maxSegBytes
      omega
    · intro hnil
      rw [closedFiles_fsAppend _ SegName.active _ _ rfl] at hnil
      show s.outOffset + (entry.mk k v).Encode.length = w + _
      rw [h3 hnil]

lemma applyPuts_inv (ps : List (Bytes × Bytes)) :
    ∀ (s : DbState) (w : Nat), activeTracksOffset s →
      s.outOffset < s.maxSegBytes →
      (closedFiles s.fs = [] → s.outOffset = w) →
      activeTracksOffset (applyPuts s ps) ∧
      (applyPuts s ps).outOffset < (applyPuts s ps).maxSegBytes ∧
      (applyPuts s ps).maxSegBytes = s.maxSegBytes ∧
      (closedFiles (applyPuts s ps).fs = [] →
        (applyPuts s ps).outOffset = w + totalEncoded ps) := by
  induction ps with
  | nil =>
    intro s w h1 h2 h3
    refine ⟨h1, h2, rfl, ?_⟩
    intro hnil
    have hnil2 : closedFiles s.fs = [] := hnil
    show s.outOffset = w + totalEncoded []
    rw [h3 hnil2]
    simp [totalEncoded]
  | cons kv rest ih =>
    intro s w h1 h2 h3
    obtain ⟨g1, g2, g3⟩ := putStep_inv s kv.1 kv.2 w h1 h2 h3
    have hstep : applyPuts s (kv :: rest) = applyPuts (putStep s kv.1 kv.2).1 rest := rfl
    rw [hstep]
    obtain ⟨r1, r2, r3, r4⟩ := ih (putStep s kv.1 kv.2).1
      (w + (entry.mk kv.1 kv.2).Encode.length) g1 g2 g3
    refine ⟨r1, r2, ?_, ?_⟩
    · rw [r3, putStep_max]
    · intro hnil
      rw [r4 hnil]
      show w + _ + totalEncoded rest = w + totalEncoded (kv :: rest)
      have : totalEncoded (kv :: rest)
          = (entry.mk kv.1 kv.2).Encode.length + totalEncoded rest := by
        simp [totalEncoded]
      omega

-- ------------------------------------------------------------
-- Claim theorems.
-- ------------------------------------------------------------

/-- Claim C1: the claim states that after two successful Puts for the same
key a Get returns the later value.  The code violates it: with a 1-byte
segment limit, Put([0],[1]) then Put([0],[2]) both succeed (error nil),
but the rotation each triggers (db.go:284-288) renames the active file
without updating the index (rotateSegment, db.go:292-315 never touches
db.index), so the index entry for [0] names the fresh empty active file
and the subsequent Get returns an EOF read error instead of [2]. -/
theorem put_put_get_wrong_after_rotation :
    (putStep (initState 1) [0] [1]).2 = none ∧
    (putStep (putStep (initState 1) [0] [1]).1 [0] [2]).2 = none ∧
    getOp (putStep (putStep (initState 1) [0] [1]).1 [0] [2]).1 [0]
      = ([], some eofErr) ∧
    (([], some eofErr) : Bytes × Option Err) ≠ ([2], none) := by
  exact ⟨rfl, rfl, rfl, by decide⟩

/-- Claim C2: the claim states that Close then Open preserves the key to
value mapping of the store.  The code violates it: after Put([0],[1])
under a 1-byte limit (rotation occurred), Get([0]) on the running store
returns an EOF error because of the dangling active-file pointer, while
the reopened store, whose index is rebuilt from the segment files,
returns Ok([1]) — the mapping before closing differs from the one after
reopening. -/
theorem reopen_differs_from_pre_close_mapping :
    getOp (applyPuts (initState 1) [([0], [1])]) [0] = ([], some eofErr) ∧
    (OpenDb (closeDb (applyPuts (initState 1) [([0], [1])])).fs 1
        (applyPuts (initState 1) [([0], [1])]).clock).map
      (fun s2 => getOp s2 [0]) = .ok ([1], none) := by
  exact ⟨rfl, rfl⟩

/-- Claim C3: the claim states that a successful Compact redirects every
compacted key into the merged segment and Gets are unchanged.  The code
violates it: starting from a recovered store whose index points key [0]
into a closed segment, Compact returns nil, but it records the compacted
pointers under the temporary file name (db.go:226) and only then renames
that file to the merged name (db.go:234), so the installed index entry
names a file that no longer exists and Get([0]) fails with an open error
instead of returning [1] as it did before the Compact. -/
theorem compact_installs_dangling_pointers :
    (OpenDb (closeDb (applyPuts (initState 1) [([0], [1])])).fs 1
        (applyPuts (initState 1) [([0], [1])]).clock).map
      (fun s2 => (getOp s2 [0], (Compact s2).2, getOp (Compact s2).1 [0]))
      = .ok (([1], none), none, ([], some openErr)) := by
  exact rfl

/-- Claim C4: whenever Compact returns an error — temporary-file creation,
reading an entry back (codec), writing the merge output, or the final
rename — the index is left unchanged, the set of files matching the
closed-segment pattern is unchanged (the leftover compact temporary never
matches it), and the writer has been restarted, so the store accepts Puts
again.  The enumeration step cannot fail because the glob pattern is a
fixed valid literal. -/
theorem compact_failure_preserves_state
    (s : DbState) (cf : CompactFaults) (s2 : DbState) (e : Err)
    (h : CompactF s cf = (s2, some e)) :
    s2.index = s.index ∧ closedFiles s2.fs = closedFiles s.fs ∧
      s2.writeChOpen = true := by
  revert h
  simp only [CompactF]
  split
  · intro h
    exact absurd (congrArg Prod.snd h) (by simp)
  · split
    · intro h
      have h1 := congrArg Prod.fst h
      subst h1
      exact ⟨rfl, rfl, rfl⟩
    · split
      · rename_i fs2 np e2 heq
        intro h
        have h1 := congrArg Prod.fst h
        subst h1
        refine ⟨rfl, ?_, rfl⟩
        have hcf := copyEntries_closedFiles
          (SegName.compactTmp (compactPaused s).clock)
          ((compactPaused s).clock + 1) rfl
          ((compactPaused s).index.filter
            (fun kp => decide (kp.2.file ≠ SegName.active)))
          (fsCreate (compactPaused s).fs
            (SegName.compactTmp (compactPaused s).clock)
            ((compactPaused s).clock + 1)) 0 [] cf.writeFailAt
        rw [heq] at hcf
        show closedFiles fs2 = closedFiles s.fs
        rw [show closedFiles s.fs = closedFiles (compactPaused s).fs from rfl]
        rw [← closedFiles_fsCreate (compactPaused s).fs
          (SegName.compactTmp (compactPaused s).clock)
          ((compactPaused s).clock + 1) rfl]
        exact hcf
      · rename_i fs2 np heq
        split
        · intro h
          have h1 := congrArg Prod.fst h
          subst h1
          refine ⟨rfl, ?_, rfl⟩
          have hcf := copyEntries_closedFiles
            (SegName.compactTmp (compactPaused s).clock)
            ((compactPaused s).clock + 1) rfl
            ((compactPaused s).index.filter
              (fun kp => decide (kp.2.file ≠ SegName.active)))
            (fsCreate (compactPaused s).fs
              (SegName.compactTmp (compactPaused s).clock)
              ((compactPaused s).clock + 1)) 0 [] cf.writeFailAt
          rw [heq] at hcf
          show closedFiles fs2 = closedFiles s.fs
          rw [show closedFiles s.fs = closedFiles (compactPaused s).fs from rfl]
          rw [← closedFiles_fsCreate (compactPaused s).fs
            (SegName.compactTmp (compactPaused s).clock)
            ((compactPaused s).clock + 1) rfl]
          exact hcf
        · intro h
          exact absurd (congrArg Prod.snd h) (by simp)

/-- Witness for C4: on the sample store with one closed segment, a Compact
whose temporary-file creation fails returns the error while the index, the
closed-segment set and the restarted writer are as the theorem states. -/
theorem compact_failure_preserves_state_witness :
    (CompactF sampleState ⟨true, none, false⟩).1.index = sampleState.index ∧
    closedFiles (CompactF sampleState ⟨true, none, false⟩).1.fs
      = closedFiles sampleState.fs ∧
    (CompactF sampleState ⟨true, none, false⟩).1.writeChOpen = true :=
  compact_failure_preserves_state sampleState ⟨true, none, false⟩
    (CompactF sampleState ⟨true, none, false⟩).1 createErr rfl

/-- Claim C5: a failed append returns the underlying write error and leaves
the index binding and the tracked append offset untouched (the update at
db.go:277-281 runs only when err == nil); stated for any state where the
offset has not already reached the segment limit, as the writer maintains. -/
theorem put_failure_preserves_index_and_offset
    (s : DbState) (k v : Bytes) (n : Nat) (rf : RotFault)
    (h : s.outOffset < s.maxSegBytes) :
    (putStepF s k v ⟨some n, rf⟩).2 = some writeErr ∧
    (putStepF s k v ⟨some n, rf⟩).1.index = s.index ∧
    (putStepF s k v ⟨some n, rf⟩).1.outOffset = s.outOffset := by
  have hc : ¬ s.maxSegBytes ≤ s.outOffset := by omega
  simp only [putStepF]
  rw [if_neg hc]
  refine ⟨?_, ?_, ?_⟩ <;> trivial

/-- Witness for C5: a failed append on a fresh store with a 10-byte limit. -/
theorem put_failure_preserves_witness :
    (putStepF (initState 10) [0] [1] ⟨some 2, RotFault.noFault⟩).2
      = some writeErr ∧
    (putStepF (initState 10) [0] [1] ⟨some 2, RotFault.noFault⟩).1.index
      = (initState 10).index ∧
    (putStepF (initState 10) [0] [1] ⟨some 2, RotFault.noFault⟩).1.outOffset
      = (initState 10).outOffset :=
  put_failure_preserves_index_and_offset (initState 10) [0] [1] 2
    RotFault.noFault (by decide)

/-- Claim C6: starting from a fresh store, once the total encoded size of
the processed Puts reaches the configured maximum, the active segment size
reported by Size is at most the maximum (each rotation renamed the active
file to a closed-segment name, opened a fresh empty active file and reset
the offset) and at least one closed segment file exists. -/
theorem rotation_bounds_active_size (maxSeg : Nat) (ps : List (Bytes × Bytes))
    (h1 : 0 < maxSeg) (h2 : maxSeg ≤ totalEncoded ps) :
    (∃ n, sizeOp (applyPuts (initState maxSeg) ps) = .ok n ∧ n ≤ maxSeg) ∧
    closedFiles (applyPuts (initState maxSeg) ps).fs ≠ [] := by
  obtain ⟨hA, hB, hC, hD⟩ := applyPuts_inv ps (initState maxSeg) 0
    ⟨⟨SegName.active, [], 0⟩, rfl, rfl⟩ h1 (fun _ => rfl)
  obtain ⟨f, hf, hlen⟩ := hA
  have h6 : (applyPuts (initState maxSeg) ps).maxSegBytes = maxSeg := hC
  constructor
  · refine ⟨f.content.length, ?_, ?_⟩
    · simp [sizeOp, hf]
    · rw [hlen]
      omega
  · intro hnil
    have h5 := hD hnil
    omega

/-- Witness for C6: one Put of 4 encoded bytes against a 1-byte limit. -/
theorem rotation_bounds_witness :
    (∃ n, sizeOp (applyPuts (initState 1) [([0], [1])]) = .ok n ∧ n ≤ 1) ∧
    closedFiles (applyPuts (initState 1) [([0], [1])]).fs ≠ [] :=
  rotation_bounds_active_size 1 [([0], [1])] (by decide) (by decide)

/-- Counterexample for C7: the claim says a rotation failure is reported as
the result of the Put that triggered it.  On a fresh store with a 1-byte
limit, a Put whose append succeeds triggers a rotation; when the rename
step of that rotation fails, the Put still returns no error — db.go:282
sends the result before the rotation check and db.go:286 discards the
rotation error — even though the resulting file set differs from the one a
successful rotation produces. -/
theorem rotation_failure_not_reported :
    (putStepF (initState 1) [0] [1] ⟨none, RotFault.renameFail⟩).2 = none ∧
    (putStepF (initState 1) [0] [1] ⟨none, RotFault.renameFail⟩).1.fs
      ≠ (putStepF (initState 1) [0] [1] ⟨none, RotFault.noFault⟩).1.fs :=
  ⟨rfl, by decide⟩

lemma decode_at_end (c : Bytes) (e : entry) :
    decodeFromBytes ((c ++ e.Encode).drop c.length) = .ok e.Encode.length e := by
  rw [List.drop_left]
  have h := decode_encode_append e []
  rwa [List.append_nil] at h

lemma mem_after_rotate (x : DbState) (rf : RotFault) (g : FsFile)
    (hg : g ∈ x.fs) (hname : g.name = SegName.active) :
    ∃ g2, g2 ∈ (rotateSegmentF x rf).1.fs ∧ g2.content = g.content := by
  cases rf with
  | syncFail => exact ⟨g, hg, rfl⟩
  | closeFail => exact ⟨g, hg, rfl⟩
  | renameFail => exact ⟨g, hg, rfl⟩
  | openFail =>
    refine ⟨⟨SegName.closed x.clock, g.content, g.mtime⟩, ?_, rfl⟩
    show _ ∈ fsRename x.fs SegName.active (SegName.closed x.clock)
    rw [fsRename]
    have h3 := List.mem_map_of_mem
      (fun f => if f.name = SegName.active then
        (⟨SegName.closed x.clock, f.content, f.mtime⟩ : FsFile) else f) hg
    dsimp only at h3
    rw [if_pos hname] at h3
    exact h3
  | noFault =>
    refine ⟨⟨SegName.closed x.clock, g.content, g.mtime⟩, ?_, rfl⟩
    show _ ∈ fsCreate (fsRename x.fs SegName.active (SegName.closed x.clock))
      SegName.active (x.clock + 1)
    apply List.mem_append_left
    rw [fsRename]
    have h3 := List.mem_map_of_mem
      (fun f => if f.name = SegName.active then
        (⟨SegName.closed x.clock, f.content, f.mtime⟩ : FsFile) else f) hg
    dsimp only at h3
    rw [if_pos hname] at h3
    exact h3

/-- Claim C7 (amended): when rotation fails after a successful append, the
failure is discarded, not reported — the Put returns no error — while the
appended record stays on disk, decodable at its recorded offset in some
file of the directory, and the index entry written for the Put is kept. -/
theorem rotation_failure_discarded (s : DbState) (k v : Bytes) (rf : RotFault)
    (f : FsFile) (h1 : fsFind s.fs SegName.active = some f)
    (h2 : f.content.length = s.outOffset) :
    (putStepF s k v ⟨none, rf⟩).2 = none ∧
    idxLookup k (putStepF s k v ⟨none, rf⟩).1.index
      = some ⟨SegName.active, s.outOffset⟩ ∧
    ∃ g, g ∈ (putStepF s k v ⟨none, rf⟩).1.fs ∧
      decodeFromBytes (g.content.drop s.outOffset)
        = .ok (entry.mk k v).Encode.length (entry.mk k v) := by
  have hfname : f.name = SegName.active := by
    have h3 := List.find?_some h1
    simpa using h3
  have hmem0 : (⟨f.name, f.content ++ (entry.mk k v).Encode, s.clock⟩ : FsFile)
      ∈ fsAppend s.fs SegName.active (entry.mk k v).Encode s.clock := by
    rw [fsAppend]
    have h3 := List.mem_map_of_mem
      (fun g => if g.name = SegName.active then
        (⟨g.name, g.content ++ (entry.mk k v).Encode, s.clock⟩ : FsFile) else g)
      (List.mem_of_find?_eq_some h1)
    dsimp only at h3
    rw [if_pos hfname] at h3
    exact h3
  have hdec : decodeFromBytes
      ((f.content ++ (entry.mk k v).Encode).drop s.outOffset)
      = .ok (entry.mk k v).Encode.length (entry.mk k v) := by
    rw [← h2]
    exact decode_at_end f.content (entry.mk k v)
  refine ⟨rfl, ?_, ?_⟩
  · have hidx : (putStepF s k v ⟨none, rf⟩).1.index
        = idxInsert k ⟨SegName.active, s.outOffset⟩ s.index := by
      simp only [putStepF]
      split
      · exact rotateSegmentF_index _ _
      · rfl
    rw [hidx, idxLookup_insert_self]
  · show ∃ g, g ∈ (putStepF s k v ⟨none, rf⟩).1.fs ∧ _
    simp only [putStepF]
    split
    · obtain ⟨g2, hg2, hcont⟩ := mem_after_rotate
        { s with
          fs := fsAppend s.fs SegName.active (entry.mk k v).Encode s.clock,
          index := idxInsert k ⟨SegName.active, s.outOffset⟩ s.index,
          outOffset := s.outOffset + (entry.mk k v).Encode.length,
          clock := s.clock + 1 } rf _ hmem0 hfname
      exact ⟨g2, hg2, by rw [hcont]; exact hdec⟩
    · exact ⟨_, hmem0, hdec⟩

/-- Witness for C7 (amended): a rotation-triggering Put on a fresh store
with a 1-byte limit whose rotation fails at the sync step. -/
theorem rotation_failure_discarded_witness :
    (putStepF (initState 1) [0] [1] ⟨none, RotFault.syncFail⟩).2 = none ∧
    idxLookup [0] (putStepF (initState 1) [0] [1]
      ⟨none, RotFault.syncFail⟩).1.index
      = some ⟨SegName.active, (initState 1).outOffset⟩ ∧
    ∃ g, g ∈ (putStepF (initState 1) [0] [1] ⟨none, RotFault.syncFail⟩).1.fs ∧
      decodeFromBytes (g.content.drop (initState 1).outOffset)
        = .ok (entry.mk [0] [1]).Encode.length (entry.mk [0] [1]) :=
  rotation_failure_discarded (initState 1) [0] [1] RotFault.syncFail
    ⟨SegName.active, [], 0⟩ rfl rfl

lemma openDb_single_active (bs : Bytes) (maxSeg c : Nat) :
    OpenDb [⟨SegName.active, bs, 0⟩] maxSeg c =
      match replayAux SegName.active (bs.length + 1) bs 0 [] with
      | .error e => .error e
      | .ok (idx, off) =>
        .ok ⟨[⟨SegName.active, bs, 0⟩], idx, off, maxSeg, c, true, true⟩ := by
  show (match (match replayAux SegName.active (bs.length + 1) bs 0 [] with
      | .error e => (.error e : Except Err (hashIndex × Nat))
      | .ok (idx2, consumed) => recoverList [] idx2 consumed) with
    | .error e => (.error e : Except Err DbState)
    | .ok (idx, off) =>
      .ok ⟨[⟨SegName.active, bs, 0⟩], idx, off, maxSeg, c, true, true⟩)
    = match replayAux SegName.active (bs.length + 1) bs 0 [] with
      | .error e => .error e
      | .ok (idx, off) =>
        .ok ⟨[⟨SegName.active, bs, 0⟩], idx, off, maxSeg, c, true, true⟩
  cases replayAux SegName.active (bs.length + 1) bs 0 [] with
  | error e => rfl
  | ok pr =>
    obtain ⟨idx, off⟩ := pr
    rfl

/-- Claim C8: if decoding the active file during Recovery ends with a
truncated trailing record — the decoder consumed a nonzero number of bytes
and then hit the end of the data — Open fails with the corruption error
from recoverFile (db.go:392-396) instead of returning a store; content
that is exactly a sequence of encoded entries ends with a clean zero-byte
EOF and Open succeeds. -/
theorem open_corruption_on_truncated_tail (es : List entry) (p : Bytes)
    (m maxSeg c : Nat) (hp : decodeFromBytes p = .eof (m + 1)) :
    OpenDb [⟨SegName.active, encodeList es ++ p, 0⟩] maxSeg c
      = .error corruptErr ∧
    ∃ s2, OpenDb [⟨SegName.active, encodeList es, 0⟩] maxSeg c = .ok s2 := by
  constructor
  · rw [openDb_single_active,
      replayAux_corrupt SegName.active es p m ((encodeList es ++ p).length + 1)
        0 [] (Nat.lt_succ_self _) hp]
  · obtain ⟨idx2, hok⟩ := replayAux_clean SegName.active es
      ((encodeList es).length + 1) 0 [] (Nat.lt_succ_self _)
    refine ⟨⟨[⟨SegName.active, encodeList es, 0⟩], idx2,
      0 + (encodeList es).length, maxSeg, c, true, true⟩, ?_⟩
    rw [openDb_single_active, hok]

/-- Witness for C8: one entry followed by the single byte 5, which announces
a 5-byte key that is not present — a truncated record — makes Open fail,
while the entry alone opens fine. -/
theorem open_corruption_witness :
    OpenDb [⟨SegName.active, encodeList [⟨[0], [1]⟩] ++ [5], 0⟩] 7 0
      = .error corruptErr ∧
    ∃ s2, OpenDb [⟨SegName.active, encodeList [⟨[0], [1]⟩], 0⟩] 7 0 = .ok s2 :=
  open_corruption_on_truncated_tail [⟨[0], [1]⟩] [5] 0 7 0 rfl

/-- Claim C9: a Get for a key that no Put in the processed sequence ever
used fails with ErrNotFound, returns the empty value, and leaves the store
state unchanged. -/
theorem get_never_put_not_found (maxSeg : Nat) (ps : List (Bytes × Bytes))
    (k : Bytes) (h : ∀ kv ∈ ps, kv.1 ≠ k) :
    getStep (applyPuts (initState maxSeg) ps) k
      = (applyPuts (initState maxSeg) ps, ([], some ErrNotFound)) := by
  have hnone : idxLookup k (applyPuts (initState maxSeg) ps).index = none :=
    applyPuts_lookup_none ps (initState maxSeg) k h rfl
  unfold getStep getOp
  rw [hnone]

/-- Witness for C9: lookup of the key [1] after a single Put of key [0]. -/
theorem get_never_put_not_found_witness :
    getStep (applyPuts (initState 10) [([0], [1])]) [1]
      = (applyPuts (initState 10) [([0], [1])], ([], some ErrNotFound)) :=
  get_never_put_not_found 10 [([0], [1])] [1] (by decide)

/-- Claim C10: Put and Get after Close, and Put while Compact has paused
the writer, do not return an error: each sends its request on a channel
that has been closed (db.go:139,145 send unconditionally; db.go:160,163
and db.go:172 close the channels), and in Go a send on a closed channel
panics — the public operations have no guarded stopped branch. -/
theorem ops_on_closed_channels_panic (s : DbState) (k v : Bytes) :
    putCall (closeDb s) k v = CallOutcome.panics ∧
    getCall (closeDb s) k = CallOutcome.panics ∧
    putCall (compactPaused s) k v = CallOutcome.panics :=
  ⟨rfl, rfl, rfl⟩
